import Mathlib

/-!
Verification of the pipeline core of the GTM B2B outreach repository: the
JSON extraction helper `extract_json_or_raise`, the four stage runners, the
orchestration in `main` (file `ai_email_gtm_outreach_agent.py`) and the
e-mail style table of `prompts.py`.  External pieces (the agent gateway, the
Streamlit widgets) enter the model as parameters: each stage runner receives
the gateway's reply text as an argument, and the orchestrator records which
stage gateways it invokes.
-/

namespace Gtm

/-- A Python JSON value as handled by `json.loads` / `json.dumps` in this
repository.  Numbers are modeled as integers: the pipeline's data model never
carries fractional numbers, and the embedded scanner rejects a fraction or an
exponent outright instead of mis-reading it (Python would build a float
there; floats are outside this model). -/
inductive Json where
  | null
  | bool (b : Bool)
  | num (i : Int)
  | str (s : String)
  | arr (items : List Json)
  | obj (pairs : List (String × Json))
deriving Repr

/-- The whitespace characters of Python's `json` module (its `WHITESPACE`
class is exactly space, tab, newline, carriage return). -/
def isJsonWs (c : Char) : Bool :=
  c == ' ' || c == '\t' || c == '\n' || c == '\r'

/-- Advance past JSON whitespace, as the `_w(s, end).end()` calls do. -/
def skipWs : List Char → List Char
  | [] => []
  | c :: rest => if isJsonWs c then skipWs rest else c :: rest

/-- Value of one hexadecimal digit, either case, as in `\uXXXX` escapes. -/
def hexDigitVal (c : Char) : Option Nat :=
  if '0' ≤ c && c ≤ '9' then some (c.toNat - 48)
  else if 'a' ≤ c && c ≤ 'f' then some (c.toNat - 97 + 10)
  else if 'A' ≤ c && c ≤ 'F' then some (c.toNat - 65 + 10)
  else none

/-- Body of a JSON string after the opening quote, per Python's `scanstring`
in strict mode: a raw control character (code below 0x20) is rejected, a
backslash introduces one of the eight named escapes or a `\uXXXX` escape.
Divergence kept small and explicit: a `\uXXXX` escape naming a surrogate
code point is rejected here (Lean characters are scalar values; Python would
build a lone-surrogate `str`), which no claim and no `json.dumps` output
touches.  These are the eight named escapes of Python's `BACKSLASH` table;
`scanStringBody` below consumes the string body itself. -/
def unescapeChar (esc : Char) : Option Char :=
  if esc == '"' then some '"'
  else if esc == '\\' then some '\\'
  else if esc == '/' then some '/'
  else if esc == 'b' then some (Char.ofNat 8)
  else if esc == 'f' then some (Char.ofNat 12)
  else if esc == 'n' then some '\n'
  else if esc == 'r' then some '\r'
  else if esc == 't' then some '\t'
  else none

def scanStringBody : List Char → Option (List Char × List Char)
  | [] => none
  | c :: rest =>
    if c == '"' then some ([], rest)
    else if c == '\\' then
      match rest with
      | [] => none
      | esc :: rest2 =>
        if esc == 'u' then
          match rest2 with
          | h1 :: h2 :: h3 :: h4 :: rest3 =>
            match hexDigitVal h1, hexDigitVal h2, hexDigitVal h3, hexDigitVal h4 with
            | some v1, some v2, some v3, some v4 =>
              let code := ((v1 * 16 + v2) * 16 + v3) * 16 + v4
              if h : code.isValidChar then
                (scanStringBody rest3).map fun p => (Char.ofNatAux code h :: p.1, p.2)
              else none
            | _, _, _, _ => none
          | _ => none
        else
          match unescapeChar esc with
          | some ch => (scanStringBody rest2).map fun p => (ch :: p.1, p.2)
          | none => none
    else if c.toNat < 32 then none
    else (scanStringBody rest).map fun p => (c :: p.1, p.2)

/-- Left fold of a maximal run of decimal digits, Python's
`(?:0|[1-9]\d*)` tail included; stops at the first non-digit. -/
def scanDigits : List Char → Nat → Nat × List Char
  | [], acc => (acc, [])
  | c :: rest, acc =>
    if c.isDigit then scanDigits rest (acc * 10 + (c.toNat - 48))
    else (acc, c :: rest)

/-- Magnitude of a JSON number once an optional minus sign has been taken:
Python's `NUMBER_RE` integer part is `0` alone or a nonzero-led digit run
(`"012"` yields `0` and leaves `"12"` behind, exactly as the regex match
does).  A digit run continued by `.`, `e` or `E` would make Python build a
float; `intOnlyGuard` rejects it outright (numbers are integers in this
model). -/
def intOnlyGuard (n : Nat) (r : List Char) : Option (Nat × List Char) :=
  match r with
  | c :: _ => if c == '.' || c == 'e' || c == 'E' then none else some (n, r)
  | [] => some (n, r)

def scanNumberMagnitude (input : List Char) : Option (Nat × List Char) :=
  match input with
  | [] => none
  | c :: rest =>
    if c == '0' then intOnlyGuard 0 rest
    else if c.isDigit then
      match scanDigits rest (c.toNat - 48) with
      | (n, r) => intOnlyGuard n r
    else none

/-- Replace the value stored under `key`, keeping its position, or append the
binding: the effect of one `dict` insertion in Python. -/
def dictInsert : List (String × Json) → String → Json → List (String × Json)
  | [], key, v => [(key, v)]
  | (k, w) :: rest, key, v =>
    if k == key then (k, v) :: rest else (k, w) :: dictInsert rest key v

/-- Build a Python `dict` from a scanned pair list, as `dict(pairs)` does at
the end of `JSONObject`: a repeated key keeps its first position and its last
value. -/
def dictOfPairs (pairs : List (String × Json)) : List (String × Json) :=
  pairs.foldl (fun acc kv => dictInsert acc kv.1 kv.2) []

mutual

/-- One JSON value at the current position (whitespace already consumed by the
caller, as in Python's `scan_once`).  The `fuel` argument only serves
totality; `json_loads` passes more than any input can use up. -/
def scanValue : Nat → List Char → Option (Json × List Char)
  | 0, _ => none
  | fuel + 1, input =>
    match input with
    | [] => none
    | c :: rest =>
      if c == '"' then
        (scanStringBody rest).map fun p => (.str (String.mk p.1), p.2)
      else if c == '\x7b' then
        match skipWs rest with
        | [] => none
        | d :: r2 =>
          if d == '\x7d' then some (.obj [], r2)
          else (scanObjectItems fuel (d :: r2)).map fun p =>
            (.obj (dictOfPairs p.1), p.2)
      else if c == '[' then
        match skipWs rest with
        | [] => none
        | d :: r2 =>
          if d == ']' then some (.arr [], r2)
          else (scanArrayItems fuel (d :: r2)).map fun p => (.arr p.1, p.2)
      else if c == 'n' then
        match rest with
        | 'u' :: 'l' :: 'l' :: r => some (.null, r)
        | _ => none
      else if c == 't' then
        match rest with
        | 'r' :: 'u' :: 'e' :: r => some (.bool true, r)
        | _ => none
      else if c == 'f' then
        match rest with
        | 'a' :: 'l' :: 's' :: 'e' :: r => some (.bool false, r)
        | _ => none
      else if c == '-' then
        (scanNumberMagnitude rest).map fun p => (.num (-(p.1 : Int)), p.2)
      else if c.isDigit then
        (scanNumberMagnitude (c :: rest)).map fun p => (.num (p.1 : Int), p.2)
      else none

/-- One or more comma-separated array elements up to the closing bracket
(the empty array was already handled by `scanValue`). -/
def scanArrayItems : Nat → List Char → Option (List Json × List Char)
  | 0, _ => none
  | fuel + 1, input =>
    match scanValue fuel input with
    | none => none
    | some (v, r) =>
      match skipWs r with
      | [] => none
      | d :: r2 =>
        if d == ']' then some ([v], r2)
        else if d == ',' then
          match scanArrayItems fuel (skipWs r2) with
          | none => none
          | some (vs, r3) => some (v :: vs, r3)
        else none

/-- One or more `"key": value` members up to the closing brace (the empty
object was already handled by `scanValue`).  Python's `JSONObject` demands a
double-quoted key, allows whitespace around the colon, and scans the value
right after it. -/
def scanObjectItems : Nat → List Char → Option (List (String × Json) × List Char)
  | 0, _ => none
  | fuel + 1, input =>
    match input with
    | [] => none
    | c :: rest =>
      if c == '"' then
        match scanStringBody rest with
        | none => none
        | some (key, r1) =>
          match skipWs r1 with
          | [] => none
          | d :: r2 =>
            if d == ':' then
              match scanValue fuel (skipWs r2) with
              | none => none
              | some (v, r3) =>
                match skipWs r3 with
                | [] => none
                | d2 :: r4 =>
                  if d2 == '\x7d' then some ([(String.mk key, v)], r4)
                  else if d2 == ',' then
                    match scanObjectItems fuel (skipWs r4) with
                    | none => none
                    | some (kvs, r5) => some ((String.mk key, v) :: kvs, r5)
                  else none
            else none
      else none

end

/-- Python's `json.loads`: skip leading whitespace, scan one value, demand
that only whitespace follows.  The error strings stand in for
`json.JSONDecodeError`; like Python's (`"Expecting value: line 1 column 1"`
and the like) they do not carry the parsed text itself. -/
def json_loads (text : String) : Except String Json :=
  match scanValue (text.data.length + 1) (skipWs text.data) with
  | none => Except.error "Expecting value"
  | some (v, rest) =>
    if (skipWs rest).isEmpty then Except.ok v else Except.error "Extra data"

/-- The character for a hexadecimal digit below 16, lower case, as Python's
`'\u%04x'` formatting writes it. -/
def hexDigitChar (n : Nat) : Char :=
  if n < 10 then Char.ofNat (48 + n) else Char.ofNat (97 + (n - 10))

/-- Serialization of one character inside a JSON string, per `json.dumps`
with `ensure_ascii=False` (the form this repository uses in its prompt
builders): the quote, the backslash and the named control characters get a
two-character escape, any other control character a `\u00XX` escape, and
everything else, non-ASCII included, passes through. -/
def escapeChar (c : Char) : List Char :=
  if c == '"' then ['\\', '"']
  else if c == '\\' then ['\\', '\\']
  else if c == '\n' then ['\\', 'n']
  else if c == '\r' then ['\\', 'r']
  else if c == '\t' then ['\\', 't']
  else if c.toNat == 8 then ['\\', 'b']
  else if c.toNat == 12 then ['\\', 'f']
  else if c.toNat < 32 then
    ['\\', 'u', '0', '0', hexDigitChar (c.toNat / 16), hexDigitChar (c.toNat % 16)]
  else [c]

/-- A whole JSON string literal: quote, escaped body, quote. -/
def encodeStringChars (s : String) : List Char :=
  '"' :: s.data.foldr (fun c acc => escapeChar c ++ acc) ['"']

/-- Decimal digits of a natural number, most significant first. -/
def natDigits (n : Nat) : List Char :=
  if n < 10 then [Char.ofNat (48 + n)]
  else natDigits (n / 10) ++ [Char.ofNat (48 + n % 10)]
termination_by n
decreasing_by exact Nat.div_lt_self (by omega) (by omega)

/-- Decimal rendering of an integer, sign included. -/
def intChars (i : Int) : List Char :=
  if i < 0 then '-' :: natDigits i.natAbs else natDigits i.toNat

mutual

/-- Python's `json.dumps` with `ensure_ascii=False` and the default
separators `", "` and `": "`, producing a character list. -/
def encodeChars : Json → List Char
  | .null => "null".data
  | .bool true => "true".data
  | .bool false => "false".data
  | .num i => intChars i
  | .str s => encodeStringChars s
  | .arr [] => ['[', ']']
  | .arr (x :: xs) => '[' :: (encodeItems x xs ++ [']'])
  | .obj [] => ['\x7b', '\x7d']
  | .obj (kv :: kvs) => '\x7b' :: (encodeMembers kv kvs ++ ['\x7d'])
termination_by j => sizeOf j
decreasing_by all_goals (simp_wf; try omega)

/-- Comma-space separated renderings of a nonempty element list. -/
def encodeItems : Json → List Json → List Char
  | x, [] => encodeChars x
  | x, y :: ys => encodeChars x ++ ',' :: ' ' :: encodeItems y ys
termination_by x xs => sizeOf x + sizeOf xs
decreasing_by all_goals (simp_wf; try omega)

/-- Comma-space separated `"key": value` renderings of a nonempty member
list. -/
def encodeMembers : String × Json → List (String × Json) → List Char
  | (k, v), [] => encodeStringChars k ++ ':' :: ' ' :: encodeChars v
  | (k, v), kv2 :: rest =>
    encodeStringChars k ++ ':' :: ' ' :: encodeChars v
      ++ ',' :: ' ' :: encodeMembers kv2 rest
termination_by kv kvs => sizeOf kv + sizeOf kvs
decreasing_by all_goals (simp_wf; try omega)

end

/-- Python's `json.dumps` as a `String`-valued function. -/
def json_dumps (x : Json) : String := String.mk (encodeChars x)

/-- A value is representable by a Python object iff every JSON object in it
has pairwise distinct keys (a Python `dict` cannot repeat a key). -/
def pairwiseDistinctKeys : List String → Bool
  | [] => true
  | k :: ks => !(ks.contains k) && pairwiseDistinctKeys ks

mutual

/-- Well-formedness: the image of Python data under the embedding, namely
every object's keys are pairwise distinct, recursively. -/
def Json.wf : Json → Bool
  | .null => true
  | .bool _ => true
  | .num _ => true
  | .str _ => true
  | .arr items => Json.wfItems items
  | .obj pairs => pairwiseDistinctKeys (pairs.map Prod.fst) && Json.wfPairs pairs

def Json.wfItems : List Json → Bool
  | [] => true
  | x :: xs => x.wf && Json.wfItems xs

def Json.wfPairs : List (String × Json) → Bool
  | [] => true
  | (_, v) :: rest => v.wf && Json.wfPairs rest

end

/-- A trailing context that cannot extend a rendered number: empty, or led
by a character that is neither a digit nor one of `.`, `e`, `E`.  Every
delimiter the scanner leaves behind (comma, closing bracket or brace,
whitespace, end of input) qualifies. -/
def numDelim : List Char → Bool
  | [] => true
  | c :: _ => !(c.isDigit || c == '.' || c == 'e' || c == 'E')

mutual

/-- Structural size driving the fuel bound of the scanner: one unit per
value plus one per list entry. -/
def jsize : Json → Nat
  | .null => 1
  | .bool _ => 1
  | .num _ => 1
  | .str _ => 1
  | .arr items => 1 + jsizeItems items
  | .obj pairs => 1 + jsizePairs pairs

def jsizeItems : List Json → Nat
  | [] => 0
  | x :: xs => 1 + jsize x + jsizeItems xs

def jsizePairs : List (String × Json) → Nat
  | [] => 0
  | (_, v) :: rest => 1 + jsize v + jsizePairs rest

end

/-- Index of the first occurrence of `c`, Python's `text.find(c)` with
`None` for `-1`. -/
def findChar (l : List Char) (c : Char) : Option Nat :=
  l.findIdx? (fun x => x == c)

/-- Index of the last occurrence of `c`, Python's `text.rfind(c)` with
`None` for `-1`. -/
def rfindChar (l : List Char) (c : Char) : Option Nat :=
  match l.reverse.findIdx? (fun x => x == c) with
  | none => none
  | some i => some (l.length - 1 - i)

/-- The substring `text[start : end + 1]` between the first brace and the
last brace, when both exist and the last closing brace stands strictly after
the first opening one — the recovery window of `extract_json_or_raise`. -/
def braceCandidate (text : String) : Option String :=
  match findChar text.data '\x7b', rfindChar text.data '\x7d' with
  | some s, some e =>
    if s < e then some (String.mk ((text.data.drop s).take (e + 1 - s))) else none
  | _, _ => none

/-- The two failure shapes of `extract_json_or_raise`: the `JSONDecodeError`
that `json.loads(candidate)` lets escape, and the `ValueError` the function
itself raises, whose message embeds the whole original reply text. -/
inductive ExtractErr where
  | decodeError (msg : String)
  | valueError (msg : String)
deriving Repr, DecidableEq

/-- The `ai_email_gtm_outreach_agent.extract_json_or_raise` function: strict
parse first; on failure parse the first-brace-to-last-brace window when it
exists; otherwise raise a `ValueError` carrying the original text.  A parse
failure of the window itself escapes as the window's own decode error. -/
def extract_json_or_raise (text : String) : Except ExtractErr Json :=
  match json_loads text with
  | .ok v => .ok v
  | .error e =>
    match braceCandidate text with
    | some candidate =>
      match json_loads candidate with
      | .ok v => .ok v
      | .error e2 => .error (.decodeError e2)
    | none =>
      .error (.valueError ("Failed to parse JSON: " ++ e ++ "\nResponse was:\n" ++ text))

/-- Python truthiness of a JSON value, as `if companies` and
`if contacts_data` test it. -/
def pyTruthy : Json → Bool
  | .null => false
  | .bool b => b
  | .num i => decide (i ≠ 0)
  | .str s => !s.data.isEmpty
  | .arr items => !items.isEmpty
  | .obj pairs => !pairs.isEmpty

/-- Errors a stage runner can raise: the parse failure out of
`extract_json_or_raise`, or a Python `TypeError`/`AttributeError` when the
parsed reply has the wrong dynamic type for `.get` or slicing. -/
inductive RunErr where
  | parseErr (e : ExtractErr)
  | typeErr (msg : String)
deriving Repr, DecidableEq

/-- Python's `data.get(key, default)`: only a `dict` has `.get`; a missing
key yields the default. -/
def pyGet (data : Json) (key : String) (dflt : Json) : Except RunErr Json :=
  match data with
  | .obj pairs =>
    .ok (match List.lookup key pairs with
         | some v => v
         | none => dflt)
  | _ => .error (.typeErr "AttributeError: object has no attribute get")

/-- Python's `value[:n]` for `n ≥ 1`: lists and strings slice, anything else
raises a `TypeError`. -/
def pySliceTo (v : Json) (n : Nat) : Except RunErr Json :=
  match v with
  | .arr items => .ok (.arr (items.take n))
  | .str s => .ok (.str (String.mk (s.data.take n)))
  | _ => .error (.typeErr "TypeError: value is not subscriptable")

/-- Stage runner `run_company_finder`, with the gateway reply
`str(agent.run(prompt).content)` passed in as `reply`: parse the reply,
read `companies` (default `[]`), clamp to the first
`max(1, min(max_companies, 10))` entries. -/
def run_company_finder (reply : String) (max_companies : Int) : Except RunErr Json :=
  match extract_json_or_raise reply with
  | .error e => .error (.parseErr e)
  | .ok data =>
    match pyGet data "companies" (.arr []) with
    | .error e => .error e
    | .ok companies => pySliceTo companies (max 1 (min max_companies 10)).toNat

/-- Stage runner `run_contact_finder`: parse the reply and read `companies`
(default `[]`), unclamped. -/
def run_contact_finder (reply : String) : Except RunErr Json :=
  match extract_json_or_raise reply with
  | .error e => .error (.parseErr e)
  | .ok data => pyGet data "companies" (.arr [])

/-- Stage runner `run_research`: parse the reply and read `companies`
(default `[]`), unclamped. -/
def run_research (reply : String) : Except RunErr Json :=
  match extract_json_or_raise reply with
  | .error e => .error (.parseErr e)
  | .ok data => pyGet data "companies" (.arr [])

/-- Stage runner `run_email_writer`: parse the reply and read `emails`
(default `[]`). -/
def run_email_writer (reply : String) : Except RunErr Json :=
  match extract_json_or_raise reply with
  | .error e => .error (.parseErr e)
  | .ok data => pyGet data "emails" (.arr [])

/-- The four stage roles, one gateway session each. -/
inductive Stage where
  | companyFinder
  | contactFinder
  | researcher
  | emailWriter
deriving Repr, DecidableEq

/-- The aggregated result bundle `st.session_state["gtm_results"]`. -/
structure PipelineResult where
  companies : Json
  contacts : Json
  research : Json
  emails : Json
deriving Repr

/-- The stage sequencing inside `main`'s try block, with the agent gateway
abstracted as the map `g` from a stage to its reply text.  Returns the list
of stages whose gateway was actually invoked, in order, and either the
aggregated bundle or the first unhandled error.  Mirrors the source: contact
finding and research run only `if companies`, e-mail writing only
`if contacts_data`; a skipped stage contributes `[]`. -/
def run_pipeline (g : Stage → String) (max_companies : Int) :
    List Stage × Except RunErr PipelineResult :=
  match run_company_finder (g .companyFinder) max_companies with
  | .error e => ([.companyFinder], .error e)
  | .ok companies =>
    let step2 : List Stage × Except RunErr Json :=
      if pyTruthy companies then ([.contactFinder], run_contact_finder (g .contactFinder))
      else ([], .ok (.arr []))
    match step2.2 with
    | .error e => ([.companyFinder] ++ step2.1, .error e)
    | .ok contacts_data =>
      let step3 : List Stage × Except RunErr Json :=
        if pyTruthy companies then ([.researcher], run_research (g .researcher))
        else ([], .ok (.arr []))
      match step3.2 with
      | .error e => ([.companyFinder] ++ step2.1 ++ step3.1, .error e)
      | .ok research_data =>
        let step4 : List Stage × Except RunErr Json :=
          if pyTruthy contacts_data then ([.emailWriter], run_email_writer (g .emailWriter))
          else ([], .ok (.arr []))
        match step4.2 with
        | .error e => ([.companyFinder] ++ step2.1 ++ step3.1 ++ step4.1, .error e)
        | .ok emails =>
          ([.companyFinder] ++ step2.1 ++ step3.1 ++ step4.1,
           .ok ⟨companies, contacts_data, research_data, emails⟩)

/-- What the error notice renders: `st.error(f"{e}")` shows the exception's
message verbatim. -/
def runErrMsg : RunErr → String
  | .parseErr (.decodeError m) => m
  | .parseErr (.valueError m) => m
  | .typeErr m => m

/-- The `try`/`except` around the stage sequence in `main`:
`st.session_state["gtm_results"]` is assigned only after all four stages
succeeded; on any unhandled error the previous stored bundle (if any) stays
as it is and the error text is surfaced.  The returned pair is the stored
bundle after the run and the failure notice, `none` on success. -/
def main_run (g : Stage → String) (max_companies : Int)
    (stored : Option PipelineResult) : Option PipelineResult × Option String :=
  match (run_pipeline g max_companies).2 with
  | .ok res => (some res, none)
  | .error e => (stored, some (runErrMsg e))

/-- The `EMAIL_STYLES` table of `prompts.py`, insertion order kept. -/
def EMAIL_STYLES : List (String × String) :=
  [("Professional",
    "Style: Professional. Clear, respectful, and businesslike. Short paragraphs; no slang."),
   ("Casual",
    "Style: Casual. Friendly, approachable, first-name basis. No slang or emojis; keep it human."),
   ("Cold",
    "Style: Cold email. Strong hook in opening 2 lines, tight value proposition, minimal fluff, strong CTA."),
   ("Consultative",
    "Style: Consultative. Insight-led, frames observed problems and tailored solution hypotheses; soft CTA.")]

/-- The `prompts.get_email_writer_instructions` function:
`EMAIL_STYLES.get(style_key, EMAIL_STYLES["Professional"])` picks the style
line, and the instruction list embeds it in second position. -/
def get_email_writer_instructions (style_key : String) : List String :=
  let style_instruction :=
    match List.lookup style_key EMAIL_STYLES with
    | some s => s
    | none => (List.lookup "Professional" EMAIL_STYLES).getD ""
  ["You are EmailWriterAgent. Write concise, personalized B2B outreach emails.",
   style_instruction,
   "Return ONLY valid JSON with key 'emails' as a list of items: \x7bcompany, contact, subject, body\x7d.",
   "Length: 120-160 words. Include 1-2 lines of strong personalization referencing research insights (company website and Reddit findings).",
   "CTA: suggest a short intro call; include sender company name and calendar link if provided."]

/-! ### Theorems about the response parser -/

/-- C10: an input that strict-parses as JSON comes back from
`extract_json_or_raise` unchanged, also when the top-level value is no JSON
object: `"[1, 2]"` yields the array `[1, 2]` and `"\"hi\""` the string
`"hi"`; no check forces the result to be an object. -/
theorem extract_strict_passthrough :
    (∀ (text : String) (v : Json), json_loads text = .ok v →
      extract_json_or_raise text = .ok v)
  ∧ extract_json_or_raise "[1, 2]" = .ok (.arr [.num 1, .num 2])
  ∧ extract_json_or_raise "\"hi\"" = .ok (.str "hi") := by
  refine ⟨fun text v h => ?_, rfl, rfl⟩
  simp [extract_json_or_raise, h]

/-- Witness for C10 at the concrete strict input `"null"`. -/
theorem extract_strict_passthrough_witness :
    extract_json_or_raise "null" = .ok .null :=
  extract_strict_passthrough.1 "null" .null rfl

/-- C7: when strict parsing fails but a first brace stands strictly before a
last brace, `extract_json_or_raise` parses the inclusive window between
them; in particular prose around a JSON object is stripped. -/
theorem extract_recovers_brace_window :
    (∀ (text e c : String) (v : Json),
        json_loads text = .error e → braceCandidate text = some c →
        json_loads c = .ok v → extract_json_or_raise text = .ok v)
  ∧ extract_json_or_raise "here you go: \x7b\"companies\": []\x7d thanks"
      = .ok (.obj [("companies", .arr [])]) := by
  refine ⟨fun text e c v h1 h2 h3 => ?_, rfl⟩
  simp [extract_json_or_raise, h1, h2, h3]

/-- Witness for C7's general part: the window of `"x: \x7b\"a\": 1\x7d."`
is `"\x7b\"a\": 1\x7d"` and parses. -/
theorem extract_recovers_brace_window_witness :
    extract_json_or_raise "x: \x7b\"a\": 1\x7d." = .ok (.obj [("a", .num 1)]) :=
  extract_recovers_brace_window.1 "x: \x7b\"a\": 1\x7d." "Expecting value"
    "\x7b\"a\": 1\x7d" (.obj [("a", .num 1)]) rfl rfl rfl

/-- C1 counterexample: for `"a\x7bb\x7dc"` strict parsing fails and the
brace window `"\x7bb\x7dc"`-to-brace substring also fails to parse, and the
resulting error is the window's decode error, whose message does not contain
the original raw text — against the claim that the error always includes the
original text. -/
theorem extract_candidate_error_drops_text :
    extract_json_or_raise "a\x7bb\x7dc" = .error (.decodeError "Expecting value")
  ∧ ¬ List.IsInfix "a\x7bb\x7dc".data "Expecting value".data := ⟨rfl, by decide⟩

/-- C1 as amended: on strict-parse failure `extract_json_or_raise` always
fails rather than returning a default; with no brace window the error is the
`ValueError` whose message embeds the original raw text, while with a brace
window that itself fails to parse the error is the window's own decode
error (which need not mention the original text). -/
theorem extract_failure_modes (text e : String)
    (hfail : json_loads text = .error e) :
    (braceCandidate text = none →
      extract_json_or_raise text
        = .error (.valueError
            ("Failed to parse JSON: " ++ e ++ "\nResponse was:\n" ++ text)))
  ∧ (∀ c e2, braceCandidate text = some c → json_loads c = .error e2 →
      extract_json_or_raise text = .error (.decodeError e2)) := by
  constructor
  · intro hnone
    simp [extract_json_or_raise, hfail, hnone]
  · intro c e2 hsome h2
    simp [extract_json_or_raise, hfail, hsome, h2]

/-- Witness for C1 (amended) at the braceless input `"no result"`. -/
theorem extract_failure_modes_witness :
    extract_json_or_raise "no result"
      = .error (.valueError
          ("Failed to parse JSON: " ++ "Expecting value"
            ++ "\nResponse was:\n" ++ "no result")) :=
  (extract_failure_modes "no result" "Expecting value" rfl).1 rfl

/-! ### Theorems about the orchestrator -/

/-- C3: on any stage error the stored bundle of the last successful run
stays exactly as it was and the failure notice carries the error's message;
the bundle is stored only when the whole pipeline returned a complete
result. -/
theorem main_run_failure_preserves_stored (g : Stage → String) (maxC : Int)
    (stored : Option PipelineResult) :
    (∀ e, (run_pipeline g maxC).2 = .error e →
      main_run g maxC stored = (stored, some (runErrMsg e)))
  ∧ (∀ res, (run_pipeline g maxC).2 = .ok res →
      main_run g maxC stored = (some res, none)) := by
  constructor
  · intro e h; simp [main_run, h]
  · intro res h; simp [main_run, h]

/-- Witness for C3: a garbage company-finder reply fails the run and leaves
a previously stored bundle untouched. -/
theorem main_run_failure_preserves_stored_witness :
    main_run (fun _ => "garbage") 3
        (some ⟨.arr [], .arr [], .arr [], .arr []⟩)
      = (some ⟨.arr [], .arr [], .arr [], .arr []⟩,
         some (runErrMsg (.parseErr (.valueError
           ("Failed to parse JSON: " ++ "Expecting value"
             ++ "\nResponse was:\n" ++ "garbage"))))) :=
  (main_run_failure_preserves_stored (fun _ => "garbage") 3
      (some ⟨.arr [], .arr [], .arr [], .arr []⟩)).1
    (.parseErr (.valueError
      ("Failed to parse JSON: " ++ "Expecting value"
        ++ "\nResponse was:\n" ++ "garbage"))) rfl

/-- C4: when the company finder returns an empty list, the contact-finder
and researcher gateways are never invoked, the run succeeds, and the final
bundle has empty companies, contacts, research and emails. -/
theorem pipeline_empty_companies (g : Stage → String) (maxC : Int)
    (h : run_company_finder (g .companyFinder) maxC = .ok (.arr [])) :
    run_pipeline g maxC
      = ([.companyFinder], .ok ⟨.arr [], .arr [], .arr [], .arr []⟩) := by
  simp [run_pipeline, h, pyTruthy]

/-- Witness for C4 with a gateway stub answering an empty company list. -/
theorem pipeline_empty_companies_witness :
    run_pipeline (fun _ => "\x7b\"companies\": []\x7d") 3
      = ([.companyFinder], .ok ⟨.arr [], .arr [], .arr [], .arr []⟩) :=
  pipeline_empty_companies (fun _ => "\x7b\"companies\": []\x7d") 3 rfl

/-- C5: when the contact finder answers an empty contacts collection, the
e-mail writer's gateway is never invoked and whenever the run completes its
e-mail collection is empty. -/
theorem pipeline_empty_contacts (g : Stage → String) (maxC : Int)
    (h : run_contact_finder (g .contactFinder) = .ok (.arr [])) :
    Stage.emailWriter ∉ (run_pipeline g maxC).1
  ∧ ∀ res, (run_pipeline g maxC).2 = .ok res → res.emails = .arr [] := by
  unfold run_pipeline
  cases hcf : run_company_finder (g .companyFinder) maxC with
  | error e => simp
  | ok companies =>
    cases htv : pyTruthy companies with
    | false =>
      simp only [htv]
      simp [pyTruthy]
    | true =>
      simp only [htv, h]
      cases hr : run_research (g .researcher) with
      | error e => simp
      | ok research => simp [pyTruthy]

/-- Witness for C5: nonempty companies, but a contact reply with an empty
company list, never reach the e-mail writer. -/
theorem pipeline_empty_contacts_witness :
    Stage.emailWriter ∉
      (run_pipeline
        (fun s => match s with
          | .contactFinder => "\x7b\"companies\": []\x7d"
          | _ => "\x7b\"companies\": [1]\x7d") 1).1 :=
  (pipeline_empty_contacts
    (fun s => match s with
      | .contactFinder => "\x7b\"companies\": []\x7d"
      | _ => "\x7b\"companies\": [1]\x7d") 1 rfl).1

/-! ### Theorems about the stage runners -/

/-- C6: a parsed reply that is an object without the stage's expected key
makes every runner return an empty collection instead of raising:
`companies` for the company finder, contact finder and researcher, `emails`
for the e-mail writer. -/
theorem runner_missing_key_empty (reply : String)
    (pairs : List (String × Json)) (maxC : Int)
    (hp : extract_json_or_raise reply = .ok (.obj pairs)) :
    (List.lookup "companies" pairs = none →
        run_company_finder reply maxC = .ok (.arr [])
      ∧ run_contact_finder reply = .ok (.arr [])
      ∧ run_research reply = .ok (.arr []))
  ∧ (List.lookup "emails" pairs = none →
      run_email_writer reply = .ok (.arr [])) := by
  constructor
  · intro hk
    refine ⟨?_, ?_, ?_⟩ <;>
      simp [run_company_finder, run_contact_finder, run_research,
        hp, pyGet, hk, pySliceTo]
  · intro hk
    simp [run_email_writer, hp, pyGet, hk]

/-- Witness for C6 at the reply `"\x7b\"x\": 1\x7d"`, which parses to an
object with neither expected key. -/
theorem runner_missing_key_empty_witness :
    run_company_finder "\x7b\"x\": 1\x7d" 5 = .ok (.arr [])
  ∧ run_contact_finder "\x7b\"x\": 1\x7d" = .ok (.arr [])
  ∧ run_research "\x7b\"x\": 1\x7d" = .ok (.arr [])
  ∧ run_email_writer "\x7b\"x\": 1\x7d" = .ok (.arr []) := by
  have h := runner_missing_key_empty "\x7b\"x\": 1\x7d" [("x", .num 1)] 5 rfl
  exact ⟨(h.1 rfl).1, (h.1 rfl).2.1, (h.1 rfl).2.2, h.2 rfl⟩

/-- C2: for a requested count between 1 and 10 and a list found under the
`companies` key of the parsed reply, the company finder returns exactly the
first `max(1, min(N, 10))` elements in order — which is the first `N` — so
its result never exceeds `min(N, 10)` elements nor the model's list. -/
theorem run_company_finder_clamp (reply : String) (max_companies : Int)
    (pairs : List (String × Json)) (L : List Json)
    (h1 : 1 ≤ max_companies) (h2 : max_companies ≤ 10)
    (hp : extract_json_or_raise reply = .ok (.obj pairs))
    (hk : List.lookup "companies" pairs = some (.arr L)) :
    run_company_finder reply max_companies
      = .ok (.arr (L.take (max 1 (min max_companies 10)).toNat))
  ∧ (max 1 (min max_companies 10)).toNat = max_companies.toNat
  ∧ (L.take max_companies.toNat).length ≤ min max_companies.toNat 10
  ∧ (L.take max_companies.toNat).length ≤ L.length := by
  refine ⟨?_, ?_, ?_, ?_⟩
  · simp [run_company_finder, hp, pyGet, hk, pySliceTo]
  · omega
  · simp [List.length_take]; omega
  · simp [List.length_take]

/-- Witness for C2: three companies in the reply, two requested. -/
theorem run_company_finder_clamp_witness :
    run_company_finder "\x7b\"companies\": [1, 2, 3]\x7d" 2
      = .ok (.arr [.num 1, .num 2]) := by
  have h := run_company_finder_clamp "\x7b\"companies\": [1, 2, 3]\x7d" 2
    [("companies", .arr [.num 1, .num 2, .num 3])] [.num 1, .num 2, .num 3]
    (by omega) (by omega) rfl rfl
  simpa using h.1

/-! ### Theorems about the prompt style table -/

/-- C9: the second instruction line is the style matching the key when the
key is in the table (Professional, Casual, Cold, Consultative), and an
unrecognized key falls back to the whole Professional instruction list. -/
theorem email_style_selection (style_key : String) :
    (get_email_writer_instructions style_key)[1]?
      = some ((List.lookup style_key EMAIL_STYLES).getD
          ((List.lookup "Professional" EMAIL_STYLES).getD ""))
  ∧ (List.lookup style_key EMAIL_STYLES = none →
      get_email_writer_instructions style_key
        = get_email_writer_instructions "Professional") := by
  constructor
  · cases h : List.lookup style_key EMAIL_STYLES <;>
      simp [get_email_writer_instructions, h]
  · intro h
    simp only [get_email_writer_instructions, h]
    rfl

/-- Witness for C9: an unrecognized key yields the Professional
instructions. -/
theorem email_style_selection_witness :
    get_email_writer_instructions "Friendly"
      = get_email_writer_instructions "Professional" :=
  (email_style_selection "Friendly").2 rfl

/-! ### Round-trip of the serializer through the scanner (towards C8) -/

/-- Structure eta for strings, for rebuilding a scanned key or body. -/
theorem string_mk_data (s : String) : String.mk s.data = s := rfl

/-- Hexadecimal digits round-trip below 16. -/
theorem hexDigitVal_hexDigitChar : ∀ d, d < 16 → hexDigitVal (hexDigitChar d) = some d := by
  decide

/-- Rebuilding a character from its own code point. -/
theorem ofNatAux_toNat (c : Char) (h : c.toNat.isValidChar) :
    Char.ofNatAux c.toNat h = c := by
  have h2 := Char.ofNat_toNat c
  unfold Char.ofNat at h2
  rwa [dif_pos h] at h2

/-- Two characters are equal when their code points are. -/
theorem char_eq_of_toNat_eq {c d : Char} (h : c.toNat = d.toNat) : c = d := by
  have h2 := Char.ofNat_toNat c
  rw [h, Char.ofNat_toNat d] at h2
  exact h2.symm

/-- Scanning one escaped character undoes `escapeChar`. -/
theorem scanStringBody_escapeChar (c : Char) (tail : List Char) :
    scanStringBody (escapeChar c ++ tail)
      = (scanStringBody tail).map fun p => (c :: p.1, p.2) := by
  by_cases h1 : c = '"'
  · subst h1
    rw [show escapeChar '"' ++ tail = '\\' :: '"' :: tail from rfl,
      scanStringBody.eq_def]
    simp [unescapeChar]
  · by_cases h2 : c = '\\'
    · subst h2
      rw [show escapeChar '\\' ++ tail = '\\' :: '\\' :: tail from rfl,
        scanStringBody.eq_def]
      simp [unescapeChar]
    · by_cases h3 : c = '\n'
      · subst h3
        rw [show escapeChar '\n' ++ tail = '\\' :: 'n' :: tail from rfl,
          scanStringBody.eq_def]
        simp [unescapeChar]
      · by_cases h4 : c = '\r'
        · subst h4
          rw [show escapeChar '\r' ++ tail = '\\' :: 'r' :: tail from rfl,
            scanStringBody.eq_def]
          simp [unescapeChar]
        · by_cases h5 : c = '\t'
          · subst h5
            rw [show escapeChar '\t' ++ tail = '\\' :: 't' :: tail from rfl,
              scanStringBody.eq_def]
            simp [unescapeChar]
          · by_cases h6 : c.toNat = 8
            · have hc : c = '\x08' := char_eq_of_toNat_eq (by rw [h6]; rfl)
              subst hc
              rw [show escapeChar '\x08' ++ tail = '\\' :: 'b' :: tail from rfl,
                scanStringBody.eq_def]
              simp [unescapeChar]
            · by_cases h7 : c.toNat = 12
              · have hc : c = '\x0c' := char_eq_of_toNat_eq (by rw [h7]; rfl)
                subst hc
                rw [show escapeChar '\x0c' ++ tail = '\\' :: 'f' :: tail from rfl,
                  scanStringBody.eq_def]
                simp [unescapeChar]
              · by_cases h8 : c.toNat < 32
                · -- the \u00XX escape: two leading zero digits, then the code
                  rw [show escapeChar c
                        = ['\\', 'u', '0', '0', hexDigitChar (c.toNat / 16),
                            hexDigitChar (c.toNat % 16)] from by
                    simp [escapeChar, h1, h2, h3, h4, h5, h6, h7, h8]]
                  simp only [List.cons_append, List.nil_append]
                  rw [scanStringBody.eq_def]
                  simp only [show hexDigitVal '0' = some 0 from rfl,
                    hexDigitVal_hexDigitChar _ (show c.toNat / 16 < 16 by omega),
                    hexDigitVal_hexDigitChar _ (show c.toNat % 16 < 16 by omega)]
                  have hcode : ((0 * 16 + 0) * 16 + c.toNat / 16) * 16
                      + c.toNat % 16 = c.toNat := by omega
                  simp only [hcode]
                  have hval : c.toNat.isValidChar := Or.inl (by omega)
                  simp [dif_pos hval, ofNatAux_toNat c hval]
                · -- an ordinary character passes through unescaped
                  rw [show escapeChar c ++ tail = c :: tail from by
                    simp [escapeChar, h1, h2, h3, h4, h5, h6, h7, h8]]
                  rw [scanStringBody.eq_def]
                  simp [h1, h2, h8]

/-- Scanning an escaped body stops exactly at the closing quote. -/
theorem scanStringBody_escaped (l : List Char) : ∀ tail : List Char,
    scanStringBody
        ((l.foldr (fun c acc => escapeChar c ++ acc) ['"']) ++ tail)
      = some (l, tail) := by
  induction l with
  | nil =>
    intro tail
    rw [List.foldr_nil, List.cons_append, List.nil_append, scanStringBody.eq_def]
    simp
  | cons c cs ih =>
    intro tail
    rw [List.foldr_cons, List.append_assoc, scanStringBody_escapeChar, ih]
    rfl


/-- Digit characters carry their value and are digits. -/
theorem digitChar_spec : ∀ n, n < 10 →
    (Char.ofNat (48 + n)).isDigit = true ∧ (Char.ofNat (48 + n)).toNat = 48 + n := by
  decide

theorem natDigits_ne_nil (n : Nat) : natDigits n ≠ [] := by
  rw [natDigits]
  split <;> simp

theorem natDigits_digits (n : Nat) : ∀ c ∈ natDigits n, c.isDigit = true := by
  induction n using Nat.strongRecOn with
  | _ n ih =>
    rw [natDigits]
    split
    · rename_i h
      intro c hc
      rw [List.mem_singleton] at hc
      subst hc
      exact (digitChar_spec n h).1
    · rename_i h
      intro c hc
      rw [List.mem_append] at hc
      cases hc with
      | inl h2 => exact ih (n / 10) (Nat.div_lt_self (by omega) (by omega)) c h2
      | inr h2 =>
        rw [List.mem_singleton] at h2
        subst h2
        exact (digitChar_spec _ (Nat.mod_lt _ (by omega))).1

/-- Folding the digit step over the rendered digits recovers the number. -/
theorem foldl_digits_natDigits (n : Nat) : ∀ acc : Nat,
    List.foldl (fun a c => a * 10 + (c.toNat - 48)) acc (natDigits n)
      = acc * 10 ^ (natDigits n).length + n := by
  induction n using Nat.strongRecOn with
  | _ n ih =>
    intro acc
    rw [natDigits]
    split
    · rename_i h
      simp only [List.foldl_cons, List.foldl_nil, List.length_cons,
        List.length_nil, (digitChar_spec n h).2, pow_one, Nat.zero_add]
      omega
    · rename_i h
      rw [List.foldl_append, ih (n / 10) (Nat.div_lt_self (by omega) (by omega))]
      simp only [List.foldl_cons, List.foldl_nil, List.length_append,
        List.length_cons, List.length_nil,
        (digitChar_spec (n % 10) (Nat.mod_lt _ (by omega))).2]
      rw [Nat.zero_add, pow_succ, ← Nat.mul_assoc]
      omega

/-- A positive number renders with a nonzero leading digit. -/
theorem natDigits_head_pos (n : Nat) (hn : 1 ≤ n) :
    ∃ c t, natDigits n = c :: t ∧ c.isDigit = true ∧ (c == '0') = false := by
  induction n using Nat.strongRecOn with
  | _ n ih =>
    rw [natDigits]
    split
    · rename_i h
      refine ⟨Char.ofNat (48 + n), [], rfl, (digitChar_spec n h).1, ?_⟩
      have hall : ∀ m, 1 ≤ m → m < 10 → (Char.ofNat (48 + m) == '0') = false := by
        decide
      exact hall n hn h
    · rename_i h
      obtain ⟨c, t, he, hd, hz⟩ :=
        ih (n / 10) (Nat.div_lt_self (by omega) (by omega)) (by omega)
      exact ⟨c, t ++ [Char.ofNat (48 + n % 10)], by rw [he]; rfl, hd, hz⟩

/-- What stands after a number delimiter head. -/
theorem numDelim_cons_props {c : Char} {t : List Char}
    (h : numDelim (c :: t) = true) :
    c.isDigit = false ∧ (c == '.') = false ∧ (c == 'e') = false
      ∧ (c == 'E') = false := by
  simp only [numDelim, Bool.not_eq_eq_eq_not, Bool.not_true,
    Bool.or_eq_false_iff] at h
  exact ⟨h.1.1.1, h.1.1.2, h.1.2, h.2⟩

theorem scanDigits_stop (r : List Char) (acc : Nat) (h : numDelim r = true) :
    scanDigits r acc = (acc, r) := by
  cases r with
  | nil => rfl
  | cons c t =>
    obtain ⟨hd, _, _, _⟩ := numDelim_cons_props h
    simp [scanDigits, hd]

/-- The digit fold consumes exactly a digit run up to a delimiter. -/
theorem scanDigits_run (ds : List Char) : ∀ (r : List Char) (acc : Nat),
    (∀ c ∈ ds, c.isDigit = true) → numDelim r = true →
    scanDigits (ds ++ r) acc
      = (List.foldl (fun a c => a * 10 + (c.toNat - 48)) acc ds, r) := by
  induction ds with
  | nil =>
    intro r acc _ hr
    rw [List.nil_append, List.foldl_nil]
    exact scanDigits_stop r acc hr
  | cons d ds ih =>
    intro r acc hall hr
    have hd := hall d (List.mem_cons_self d ds)
    rw [List.cons_append, List.foldl_cons]
    simp only [scanDigits, hd, if_true]
    exact ih r _ (fun c hc => hall c (List.mem_cons_of_mem d hc)) hr

theorem intOnlyGuard_delim (n : Nat) (r : List Char) (h : numDelim r = true) :
    intOnlyGuard n r = some (n, r) := by
  cases r with
  | nil => rfl
  | cons c t =>
    obtain ⟨_, h2, h3, h4⟩ := numDelim_cons_props h
    simp [intOnlyGuard, h2, h3, h4]

/-- The number scanner inverts `natDigits` in front of a delimiter. -/
theorem scanNumberMagnitude_natDigits (n : Nat) (r : List Char)
    (hr : numDelim r = true) :
    scanNumberMagnitude (natDigits n ++ r) = some (n, r) := by
  by_cases h0 : n = 0
  · subst h0
    have h00 : natDigits 0 = ['0'] := by rw [natDigits]; decide
    rw [h00]
    simp [scanNumberMagnitude, intOnlyGuard_delim 0 r hr]
  · obtain ⟨c, t, he, hd, hz⟩ := natDigits_head_pos n (by omega)
    have hdt : ∀ x ∈ t, x.isDigit = true := fun x hx =>
      natDigits_digits n x (he ▸ List.mem_cons_of_mem c hx)
    have hf := foldl_digits_natDigits n 0
    rw [he, List.foldl_cons] at hf
    simp only [Nat.zero_mul, Nat.zero_add] at hf
    rw [he, List.cons_append]
    simp only [scanNumberMagnitude, hz, hd, if_true, Bool.false_eq_true,
      if_false, scanDigits_run t r _ hdt hr, hf]
    exact intOnlyGuard_delim n r hr


/-- A digit never equals a character that is not a digit. -/
theorem ne_of_isDigit {c : Char} (h : c.isDigit = true) {d : Char}
    (hd : d.isDigit = false) : (c == d) = false := by
  rw [beq_eq_false_iff_ne]
  rintro rfl
  rw [h] at hd
  simp at hd

/-- A digit is no whitespace, bracket, brace, sign or keyword head. -/
theorem digit_not_special {c : Char} (h : c.isDigit = true) :
    isJsonWs c = false ∧ (c == '"') = false ∧ (c == '\x7b') = false
  ∧ (c == '[') = false ∧ (c == 'n') = false ∧ (c == 't') = false
  ∧ (c == 'f') = false ∧ (c == '-') = false ∧ (c == ']') = false
  ∧ (c == '\x7d') = false := by
  refine ⟨?_, ?_, ?_, ?_, ?_, ?_, ?_, ?_, ?_, ?_⟩
  · simp [isJsonWs, ne_of_isDigit h (show (' ').isDigit = false by decide),
      ne_of_isDigit h (show ('\t').isDigit = false by decide),
      ne_of_isDigit h (show ('\n').isDigit = false by decide),
      ne_of_isDigit h (show ('\r').isDigit = false by decide)]
  · exact ne_of_isDigit h (by decide)
  · exact ne_of_isDigit h (by decide)
  · exact ne_of_isDigit h (by decide)
  · exact ne_of_isDigit h (by decide)
  · exact ne_of_isDigit h (by decide)
  · exact ne_of_isDigit h (by decide)
  · exact ne_of_isDigit h (by decide)
  · exact ne_of_isDigit h (by decide)
  · exact ne_of_isDigit h (by decide)

/-- The rendering of a number is a nonempty digit-or-sign-led list. -/
theorem natDigits_cons (n : Nat) :
    ∃ c t, natDigits n = c :: t ∧ c.isDigit = true := by
  cases hnd : natDigits n with
  | nil => exact absurd hnd (natDigits_ne_nil n)
  | cons c t =>
    exact ⟨c, t, rfl, natDigits_digits n c (hnd ▸ List.mem_cons_self c t)⟩

/-- Every rendered value starts with a character that is no whitespace and
closes neither an array nor an object. -/
theorem encodeChars_head (x : Json) :
    ∃ c t, encodeChars x = c :: t ∧ isJsonWs c = false
      ∧ (c == ']') = false ∧ (c == '\x7d') = false := by
  cases x with
  | null =>
    exact ⟨'n', ['u', 'l', 'l'], by simp [encodeChars], by decide, by decide,
      by decide⟩
  | bool b =>
    cases b with
    | true =>
      exact ⟨'t', ['r', 'u', 'e'], by simp [encodeChars], by decide,
        by decide, by decide⟩
    | false =>
      exact ⟨'f', ['a', 'l', 's', 'e'], by simp [encodeChars], by decide,
        by decide, by decide⟩
  | str s =>
    exact ⟨'"', s.data.foldr (fun c acc => escapeChar c ++ acc) ['"'],
      by simp [encodeChars, encodeStringChars], by decide, by decide, by decide⟩
  | arr items =>
    cases items with
    | nil =>
      exact ⟨'[', [']'], by simp [encodeChars], by decide, by decide, by decide⟩
    | cons y ys =>
      exact ⟨'[', encodeItems y ys ++ [']'], by simp [encodeChars], by decide,
        by decide, by decide⟩
  | obj pairs =>
    cases pairs with
    | nil =>
      exact ⟨'\x7b', ['\x7d'], by simp [encodeChars], by decide, by decide,
        by decide⟩
    | cons kv kvs =>
      exact ⟨'\x7b', encodeMembers kv kvs ++ ['\x7d'], by simp [encodeChars],
        by decide, by decide, by decide⟩
  | num i =>
    by_cases hi : i < 0
    · exact ⟨'-', natDigits i.natAbs, by simp [encodeChars, intChars, hi],
        by decide, by decide, by decide⟩
    · obtain ⟨c, t, he, hd⟩ := natDigits_cons i.toNat
      obtain ⟨hw, _, _, _, _, _, _, _, hbr, hbc⟩ := digit_not_special hd
      exact ⟨c, t, by simp [encodeChars, intChars, hi, he], hw, hbr, hbc⟩

/-- Skipping whitespace is the identity on a non-whitespace head. -/
theorem skipWs_not_ws {c : Char} (h : isJsonWs c = false) (t : List Char) :
    skipWs (c :: t) = c :: t := by
  simp [skipWs, h]

/-- A nonempty rendered element list starts like its first value. -/
theorem encodeItems_head (x : Json) (xs : List Json) :
    ∃ c t, encodeItems x xs = c :: t ∧ isJsonWs c = false
      ∧ (c == ']') = false := by
  obtain ⟨c, t, he, hw, hbr, _⟩ := encodeChars_head x
  cases xs with
  | nil => exact ⟨c, t, by simp [encodeItems, he], hw, hbr⟩
  | cons y ys =>
    exact ⟨c, t ++ ',' :: ' ' :: encodeItems y ys,
      by simp [encodeItems, he], hw, hbr⟩

/-- Inserting a fresh key appends the binding. -/
theorem dictInsert_notmem (k : String) (v : Json) :
    ∀ acc : List (String × Json), (∀ kv ∈ acc, kv.1 ≠ k) →
    dictInsert acc k v = acc ++ [(k, v)] := by
  intro acc
  induction acc with
  | nil => intro _; rfl
  | cons kv0 rest ih =>
    intro h
    obtain ⟨k0, v0⟩ := kv0
    have hne : (k0 == k) = false :=
      beq_eq_false_iff_ne.mpr (h (k0, v0) (List.mem_cons_self _ _))
    simp [dictInsert, hne,
      ih (fun kv hkv => h kv (List.mem_cons_of_mem _ hkv))]

/-- Pairwise distinct keys split around a middle element. -/
theorem pdk_append_cons (A : List String) (k : String) (B : List String)
    (h : pairwiseDistinctKeys (A ++ k :: B) = true) : ∀ a ∈ A, a ≠ k := by
  induction A with
  | nil => simp
  | cons a A ih =>
    rw [List.cons_append] at h
    simp only [pairwiseDistinctKeys, Bool.and_eq_true, Bool.not_eq_eq_eq_not,
      Bool.not_true] at h
    intro x hx
    rcases List.mem_cons.mp hx with hxa | hxA
    · subst hxa
      intro hxk
      subst hxk
      have hm : x ∈ A ++ x :: B := List.mem_append_right _ (List.mem_cons_self x B)
      have hc : (A ++ x :: B).contains x = true := List.elem_iff.mpr hm
      have hf := h.1
      rw [hc] at hf
      simp at hf
    · exact ih h.2 x hxA

/-- Folding `dict` insertions over pairwise-distinct pairs appends them. -/
theorem foldl_dictInsert (pairs : List (String × Json)) : ∀ acc,
    pairwiseDistinctKeys ((acc ++ pairs).map Prod.fst) = true →
    List.foldl (fun a kv => dictInsert a kv.1 kv.2) acc pairs = acc ++ pairs := by
  induction pairs with
  | nil => intro acc _; simp
  | cons kv rest ih =>
    intro acc h
    rw [List.foldl_cons]
    rw [show (acc ++ kv :: rest).map Prod.fst
        = acc.map Prod.fst ++ kv.1 :: rest.map Prod.fst by simp] at h
    have hni : ∀ kv2 ∈ acc, kv2.1 ≠ kv.1 := fun kv2 hkv2 =>
      pdk_append_cons _ _ _ h kv2.1 (List.mem_map_of_mem _ hkv2)
    rw [dictInsert_notmem kv.1 kv.2 acc hni]
    have h2 : pairwiseDistinctKeys (((acc ++ [kv]) ++ rest).map Prod.fst)
        = true := by
      rw [List.append_assoc, List.singleton_append]
      simpa using h
    rw [ih (acc ++ [kv]) h2, List.append_assoc, List.singleton_append]

/-- On a representable pair list, `dict(pairs)` is the identity. -/
theorem dictOfPairs_distinct (pairs : List (String × Json))
    (h : pairwiseDistinctKeys (pairs.map Prod.fst) = true) :
    dictOfPairs pairs = pairs := by
  have h2 := foldl_dictInsert pairs [] (by simpa using h)
  simpa [dictOfPairs] using h2


mutual

/-- The scanner fuel a value needs is bounded by its rendered length. -/
theorem jsize_le_len : ∀ x : Json, jsize x ≤ (encodeChars x).length
  | .null => by simp [jsize, encodeChars]
  | .bool b => by cases b <;> simp [jsize, encodeChars]
  | .num i => by
    by_cases hi : i < 0
    · have h1 : 0 < (natDigits i.natAbs).length :=
        List.length_pos.mpr (natDigits_ne_nil _)
      simp only [jsize, encodeChars, intChars, hi, if_true, List.length_cons]
      omega
    · have h1 : 0 < (natDigits i.toNat).length :=
        List.length_pos.mpr (natDigits_ne_nil _)
      simp only [jsize, encodeChars, intChars, hi, if_false,
        Bool.false_eq_true]
      omega
  | .str s => by
    simp only [jsize, encodeChars, encodeStringChars, List.length_cons]
    omega
  | .arr [] => by simp [jsize, jsizeItems, encodeChars]
  | .arr (x :: xs) => by
    have h := jsizeItems_le_len x xs
    simp only [jsize, encodeChars, List.length_cons, List.length_append,
      List.length_singleton]
    omega
  | .obj [] => by simp [jsize, jsizePairs, encodeChars]
  | .obj (kv :: kvs) => by
    have h := jsizePairs_le_len kv kvs
    simp only [jsize, encodeChars, List.length_cons, List.length_append,
      List.length_singleton]
    omega
termination_by x => sizeOf x
decreasing_by all_goals (simp_wf; try omega)

theorem jsizeItems_le_len : ∀ (x : Json) (xs : List Json),
    jsizeItems (x :: xs) ≤ 1 + (encodeItems x xs).length
  | x, [] => by
    have h := jsize_le_len x
    simp only [jsizeItems, encodeItems]
    omega
  | x, y :: ys => by
    have h1 := jsize_le_len x
    have h2 := jsizeItems_le_len y ys
    simp only [jsizeItems] at h2
    simp only [jsizeItems, encodeItems, List.length_append, List.length_cons]
    omega
termination_by x xs => sizeOf x + sizeOf xs
decreasing_by all_goals (simp_wf; try omega)

theorem jsizePairs_le_len : ∀ (kv : String × Json) (kvs : List (String × Json)),
    jsizePairs (kv :: kvs) ≤ 1 + (encodeMembers kv kvs).length
  | (k, v), [] => by
    have h := jsize_le_len v
    simp only [jsizePairs, encodeMembers, List.length_append, List.length_cons]
    omega
  | (k, v), kv2 :: kvs => by
    obtain ⟨k2, v2⟩ := kv2
    have h1 := jsize_le_len v
    have h2 := jsizePairs_le_len (k2, v2) kvs
    simp only [jsizePairs] at h2
    simp only [jsizePairs, encodeMembers, List.length_append, List.length_cons]
    omega
termination_by kv kvs => sizeOf kv + sizeOf kvs
decreasing_by all_goals (simp_wf; try omega)

end


/-! ### One-step reductions of the scanner (definitional) -/

theorem scanValue_null_step (f : Nat) (rest : List Char) :
    scanValue (f + 1) ('n' :: 'u' :: 'l' :: 'l' :: rest) = some (.null, rest) := rfl

theorem scanValue_true_step (f : Nat) (rest : List Char) :
    scanValue (f + 1) ('t' :: 'r' :: 'u' :: 'e' :: rest)
      = some (.bool true, rest) := rfl

theorem scanValue_false_step (f : Nat) (rest : List Char) :
    scanValue (f + 1) ('f' :: 'a' :: 'l' :: 's' :: 'e' :: rest)
      = some (.bool false, rest) := rfl

theorem scanValue_string_step (f : Nat) (R : List Char) :
    scanValue (f + 1) ('"' :: R)
      = (scanStringBody R).map fun p => (.str (String.mk p.1), p.2) := rfl

theorem scanValue_neg_step (f : Nat) (R : List Char) :
    scanValue (f + 1) ('-' :: R)
      = (scanNumberMagnitude R).map fun p => (.num (-(p.1 : Int)), p.2) := rfl

theorem scanValue_arr_step (f : Nat) (R : List Char) :
    scanValue (f + 1) ('[' :: R)
      = (match skipWs R with
         | [] => none
         | d :: r2 =>
           if d == ']' then some (.arr [], r2)
           else (scanArrayItems f (d :: r2)).map fun p => (.arr p.1, p.2)) := rfl

theorem scanValue_obj_step (f : Nat) (R : List Char) :
    scanValue (f + 1) ('\x7b' :: R)
      = (match skipWs R with
         | [] => none
         | d :: r2 =>
           if d == '\x7d' then some (.obj [], r2)
           else (scanObjectItems f (d :: r2)).map fun p =>
             (.obj (dictOfPairs p.1), p.2)) := rfl

/-- The scanner's dispatch on the head character, laid bare (definitional). -/
theorem scanValue_cons_step (f : Nat) (c : Char) (R : List Char) :
    scanValue (f + 1) (c :: R)
      = (if c == '"' then
          (scanStringBody R).map fun p => (.str (String.mk p.1), p.2)
        else if c == '\x7b' then
          match skipWs R with
          | [] => none
          | d :: r2 =>
            if d == '\x7d' then some (.obj [], r2)
            else (scanObjectItems f (d :: r2)).map fun p =>
              (.obj (dictOfPairs p.1), p.2)
        else if c == '[' then
          match skipWs R with
          | [] => none
          | d :: r2 =>
            if d == ']' then some (.arr [], r2)
            else (scanArrayItems f (d :: r2)).map fun p => (.arr p.1, p.2)
        else if c == 'n' then
          match R with
          | 'u' :: 'l' :: 'l' :: r => some (.null, r)
          | _ => none
        else if c == 't' then
          match R with
          | 'r' :: 'u' :: 'e' :: r => some (.bool true, r)
          | _ => none
        else if c == 'f' then
          match R with
          | 'a' :: 'l' :: 's' :: 'e' :: r => some (.bool false, r)
          | _ => none
        else if c == '-' then
          (scanNumberMagnitude R).map fun p => (.num (-(p.1 : Int)), p.2)
        else if c.isDigit then
          (scanNumberMagnitude (c :: R)).map fun p => (.num (p.1 : Int), p.2)
        else none) := rfl

/-- A digit-led input scans as a number (the one non-definitional head). -/
theorem scanValue_digit_step (f : Nat) (c : Char) (R : List Char)
    (h : c.isDigit = true) :
    scanValue (f + 1) (c :: R)
      = (scanNumberMagnitude (c :: R)).map fun p => (.num (p.1 : Int), p.2) := by
  obtain ⟨_, h1, h2, h3, h4, h5, h6, h7, _, _⟩ := digit_not_special h
  rw [scanValue_cons_step]
  simp [h, h1, h2, h3, h4, h5, h6, h7]

theorem scanArrayItems_step (f : Nat) (input : List Char) :
    scanArrayItems (f + 1) input
      = (match scanValue f input with
         | none => none
         | some (v, r) =>
           match skipWs r with
           | [] => none
           | d :: r2 =>
             if d == ']' then some ([v], r2)
             else if d == ',' then
               match scanArrayItems f (skipWs r2) with
               | none => none
               | some (vs, r3) => some (v :: vs, r3)
             else none) := rfl

theorem scanObjectItems_quote_step (f : Nat) (R : List Char) :
    scanObjectItems (f + 1) ('"' :: R)
      = (match scanStringBody R with
         | none => none
         | some (key, r1) =>
           match skipWs r1 with
           | [] => none
           | d :: r2 =>
             if d == ':' then
               match scanValue f (skipWs r2) with
               | none => none
               | some (v, r3) =>
                 match skipWs r3 with
                 | [] => none
                 | d2 :: r4 =>
                   if d2 == '\x7d' then some ([(String.mk key, v)], r4)
                   else if d2 == ',' then
                     match scanObjectItems f (skipWs r4) with
                     | none => none
                     | some (kvs, r5) => some ((String.mk key, v) :: kvs, r5)
                   else none
             else none) := rfl

/-! ### The round-trip itself -/

/-- A nonempty rendered member list starts with the key's opening quote. -/
theorem encodeMembers_head (kv : String × Json) (kvs : List (String × Json)) :
    ∃ u, encodeMembers kv kvs = '"' :: u := by
  obtain ⟨k, v⟩ := kv
  cases kvs with
  | nil =>
    exact ⟨k.data.foldr (fun c acc => escapeChar c ++ acc) ['"']
        ++ ':' :: ' ' :: encodeChars v,
      by simp [encodeMembers, encodeStringChars]⟩
  | cons kv2 kvs =>
    exact ⟨k.data.foldr (fun c acc => escapeChar c ++ acc) ['"']
        ++ ':' :: ' ' :: (encodeChars v ++ ',' :: ' ' :: encodeMembers kv2 kvs),
      by simp [encodeMembers, encodeStringChars]⟩

/-- The array branch on a first element that is neither whitespace nor a
closing bracket reduces to scanning the elements. -/
theorem scanValue_arr_cons_step (f : Nat) (c : Char) (l : List Char)
    (hwc : isJsonWs c = false) (hbr : (c == ']') = false) :
    scanValue (f + 1) ('[' :: (c :: l))
      = (scanArrayItems f (c :: l)).map fun p => (.arr p.1, p.2) := by
  rw [scanValue_arr_step, skipWs_not_ws hwc]
  show (if (c == ']') = true then some (Json.arr [], l)
        else (scanArrayItems f (c :: l)).map fun p => (Json.arr p.1, p.2))
      = (scanArrayItems f (c :: l)).map fun p => (Json.arr p.1, p.2)
  rw [hbr]
  exact if_neg (by simp)

/-- The object branch on a member list led by a key quote reduces to
scanning the members. -/
theorem scanValue_obj_cons_step (f : Nat) (c : Char) (l : List Char)
    (hwc : isJsonWs c = false) (hbc : (c == '\x7d') = false) :
    scanValue (f + 1) ('\x7b' :: (c :: l))
      = (scanObjectItems f (c :: l)).map fun p =>
          (.obj (dictOfPairs p.1), p.2) := by
  rw [scanValue_obj_step, skipWs_not_ws hwc]
  show (if (c == '\x7d') = true then some (Json.obj [], l)
        else (scanObjectItems f (c :: l)).map fun p =>
          (Json.obj (dictOfPairs p.1), p.2))
      = (scanObjectItems f (c :: l)).map fun p => (Json.obj (dictOfPairs p.1), p.2)
  rw [hbc]
  exact if_neg (by simp)

mutual

/-- Scanning a rendered representable value at sufficient fuel recovers it
and leaves the trailing context untouched. -/
theorem encode_scanValue : ∀ (x : Json), Json.wf x = true →
    ∀ (fuel : Nat) (rest : List Char), jsize x ≤ fuel → numDelim rest = true →
    scanValue fuel (encodeChars x ++ rest) = some (x, rest)
  | .null, _, fuel, rest, hf, _ => by
    cases fuel with
    | zero => simp only [jsize] at hf; omega
    | succ f =>
      rw [show encodeChars .null = "null".data from by simp [encodeChars]]
      exact scanValue_null_step f rest
  | .bool true, _, fuel, rest, hf, _ => by
    cases fuel with
    | zero => simp only [jsize] at hf; omega
    | succ f =>
      rw [show encodeChars (.bool true) = "true".data from by
        simp [encodeChars]]
      exact scanValue_true_step f rest
  | .bool false, _, fuel, rest, hf, _ => by
    cases fuel with
    | zero => simp only [jsize] at hf; omega
    | succ f =>
      rw [show encodeChars (.bool false) = "false".data from by
        simp [encodeChars]]
      exact scanValue_false_step f rest
  | .str s, _, fuel, rest, hf, _ => by
    cases fuel with
    | zero => simp only [jsize] at hf; omega
    | succ f =>
      rw [show encodeChars (.str s) ++ rest
          = '"' :: (s.data.foldr (fun c acc => escapeChar c ++ acc) ['"'] ++ rest)
        from by simp [encodeChars, encodeStringChars]]
      rw [scanValue_string_step, scanStringBody_escaped s.data rest]
      simp [string_mk_data]
  | .num i, _, fuel, rest, hf, hr => by
    cases fuel with
    | zero => simp only [jsize] at hf; omega
    | succ f =>
      by_cases hi : i < 0
      · rw [show encodeChars (.num i) ++ rest
            = '-' :: (natDigits i.natAbs ++ rest) from by
          simp [encodeChars, intChars, hi]]
        rw [scanValue_neg_step, scanNumberMagnitude_natDigits _ rest hr]
        have hnn : -((i.natAbs : Int)) = i := by omega
        show some (Json.num (-(i.natAbs : Int)), rest) = some (Json.num i, rest)
        rw [hnn]
      · obtain ⟨c, t, he, hd⟩ := natDigits_cons i.toNat
        rw [show encodeChars (.num i) = natDigits i.toNat from by
          simp [encodeChars, intChars, hi]]
        rw [he, List.cons_append, scanValue_digit_step f c _ hd,
          ← List.cons_append, ← he, scanNumberMagnitude_natDigits _ rest hr]
        have hnn : ((i.toNat : Int)) = i := by omega
        show some (Json.num ((i.toNat : Int)), rest) = some (Json.num i, rest)
        rw [hnn]
  | .arr [], _, fuel, rest, hf, _ => by
    cases fuel with
    | zero => simp only [jsize] at hf; omega
    | succ f =>
      rw [show encodeChars (.arr []) ++ rest = '[' :: (']' :: rest) from by
        simp [encodeChars]]
      rw [scanValue_arr_step]
      rfl
  | .arr (x :: xs), hw, fuel, rest, hf, _ => by
    simp only [Json.wf] at hw
    cases fuel with
    | zero => simp only [jsize] at hf; omega
    | succ f =>
      simp only [jsize] at hf
      have hfi : jsizeItems (x :: xs) ≤ f := by omega
      obtain ⟨c, t, hei, hwc, hbr⟩ := encodeItems_head x xs
      have hitems := encode_scanArrayItems x xs hw f rest hfi
      rw [show encodeChars (.arr (x :: xs)) ++ rest
          = '[' :: (encodeItems x xs ++ ']' :: rest) from by simp [encodeChars]]
      rw [hei, List.cons_append, scanValue_arr_cons_step f c _ hwc hbr,
        ← List.cons_append, ← hei, hitems]
      rfl
  | .obj [], _, fuel, rest, hf, _ => by
    cases fuel with
    | zero => simp only [jsize] at hf; omega
    | succ f =>
      rw [show encodeChars (.obj []) ++ rest = '\x7b' :: ('\x7d' :: rest) from by
        simp [encodeChars]]
      rw [scanValue_obj_step]
      rfl
  | .obj (kv :: kvs), hw, fuel, rest, hf, _ => by
    simp only [Json.wf, Bool.and_eq_true] at hw
    cases fuel with
    | zero => simp only [jsize] at hf; omega
    | succ f =>
      simp only [jsize] at hf
      have hfp : jsizePairs (kv :: kvs) ≤ f := by omega
      have hmem := encode_scanObjectItems kv kvs hw.2 f rest hfp
      obtain ⟨u, hu⟩ := encodeMembers_head kv kvs
      rw [show encodeChars (.obj (kv :: kvs)) ++ rest
          = '\x7b' :: (encodeMembers kv kvs ++ '\x7d' :: rest) from by
        simp [encodeChars]]
      rw [hu, List.cons_append,
        scanValue_obj_cons_step f '"' _ (by decide) (by decide),
        ← List.cons_append, ← hu, hmem]
      simp [dictOfPairs_distinct (kv :: kvs) hw.1]
termination_by x => sizeOf x
decreasing_by all_goals (simp_wf; try omega)

/-- Scanning rendered elements in front of the closing bracket recovers the
element list. -/
theorem encode_scanArrayItems : ∀ (x : Json) (xs : List Json),
    Json.wfItems (x :: xs) = true →
    ∀ (fuel : Nat) (rest : List Char), jsizeItems (x :: xs) ≤ fuel →
    scanArrayItems fuel (encodeItems x xs ++ ']' :: rest) = some (x :: xs, rest)
  | x, [], hw, fuel, rest, hf => by
    simp only [Json.wfItems, Bool.and_eq_true] at hw
    cases fuel with
    | zero => simp only [jsizeItems] at hf; omega
    | succ f =>
      simp only [jsizeItems] at hf
      rw [show encodeItems x [] = encodeChars x from by simp [encodeItems]]
      rw [scanArrayItems_step,
        encode_scanValue x hw.1 f (']' :: rest) (by omega) (by rfl)]
      rfl
  | x, y :: ys, hw, fuel, rest, hf => by
    simp only [Json.wfItems, Bool.and_eq_true] at hw
    cases fuel with
    | zero => simp only [jsizeItems] at hf; omega
    | succ f =>
      simp only [jsizeItems] at hf
      have hfx : jsize x ≤ f := by omega
      have hfys : jsizeItems (y :: ys) ≤ f := by simp only [jsizeItems]; omega
      obtain ⟨c, t, hei, hwc, _⟩ := encodeItems_head y ys
      have hwys : Json.wfItems (y :: ys) = true := by
        simp only [Json.wfItems, Bool.and_eq_true]
        exact ⟨hw.2.1, hw.2.2⟩
      have hys := encode_scanArrayItems y ys hwys f rest hfys
      rw [show encodeItems x (y :: ys) ++ ']' :: rest
          = encodeChars x ++ ',' :: ' ' :: (encodeItems y ys ++ ']' :: rest)
        from by simp [encodeItems, List.append_assoc]]
      rw [scanArrayItems_step,
        encode_scanValue x hw.1 f _ hfx (by rfl)]
      show (match scanArrayItems f
              (skipWs (' ' :: (encodeItems y ys ++ ']' :: rest))) with
            | none => none
            | some (vs, r3) => some (x :: vs, r3)) = some (x :: y :: ys, rest)
      rw [show skipWs (' ' :: (encodeItems y ys ++ ']' :: rest))
          = skipWs (encodeItems y ys ++ ']' :: rest) from rfl]
      rw [hei, List.cons_append, skipWs_not_ws hwc, ← List.cons_append, ← hei,
        hys]
termination_by x xs => sizeOf x + sizeOf xs
decreasing_by all_goals (simp_wf; try omega)

/-- Scanning rendered members in front of the closing brace recovers the
member list. -/
theorem encode_scanObjectItems : ∀ (kv : String × Json)
    (kvs : List (String × Json)), Json.wfPairs (kv :: kvs) = true →
    ∀ (fuel : Nat) (rest : List Char), jsizePairs (kv :: kvs) ≤ fuel →
    scanObjectItems fuel (encodeMembers kv kvs ++ '\x7d' :: rest)
      = some (kv :: kvs, rest)
  | (k, v), [], hw, fuel, rest, hf => by
    simp only [Json.wfPairs, Bool.and_eq_true] at hw
    cases fuel with
    | zero => simp only [jsizePairs] at hf; omega
    | succ f =>
      simp only [jsizePairs] at hf
      have hwv : v.wf = true := hw.1
      obtain ⟨c, t, hec, hwc, _, _⟩ := encodeChars_head v
      rw [show encodeMembers (k, v) [] ++ '\x7d' :: rest
          = '"' :: ((k.data.foldr (fun c acc => escapeChar c ++ acc) ['"'])
              ++ (':' :: ' ' :: (encodeChars v ++ '\x7d' :: rest))) from by
        simp [encodeMembers, encodeStringChars, List.append_assoc]]
      rw [scanObjectItems_quote_step, scanStringBody_escaped k.data _]
      show (match scanValue f
              (skipWs (' ' :: (encodeChars v ++ '\x7d' :: rest))) with
            | none => none
            | some (v2, r3) =>
              match skipWs r3 with
              | [] => none
              | d2 :: r4 =>
                if d2 == '\x7d' then some ([(String.mk k.data, v2)], r4)
                else if d2 == ',' then
                  match scanObjectItems f (skipWs r4) with
                  | none => none
                  | some (kvs2, r5) => some ((String.mk k.data, v2) :: kvs2, r5)
                else none) = some ([(k, v)], rest)
      rw [show skipWs (' ' :: (encodeChars v ++ '\x7d' :: rest))
          = skipWs (encodeChars v ++ '\x7d' :: rest) from rfl]
      rw [hec, List.cons_append, skipWs_not_ws hwc, ← List.cons_append, ← hec]
      rw [encode_scanValue v hwv f ('\x7d' :: rest) (by omega) (by rfl)]
      rfl
  | (k, v), kv2 :: kvs, hw, fuel, rest, hf => by
    simp only [Json.wfPairs, Bool.and_eq_true] at hw
    cases fuel with
    | zero => simp only [jsizePairs] at hf; omega
    | succ f =>
      simp only [jsizePairs] at hf
      have hwv : v.wf = true := hw.1
      have hfv : jsize v ≤ f := by omega
      have hfkvs : jsizePairs (kv2 :: kvs) ≤ f := by
        simp only [jsizePairs]
        omega
      have hwkvs : Json.wfPairs (kv2 :: kvs) = true := by
        simp only [Json.wfPairs, Bool.and_eq_true]
        exact hw.2
      have hmem := encode_scanObjectItems kv2 kvs hwkvs f rest hfkvs
      obtain ⟨c, t, hec, hwc, _, _⟩ := encodeChars_head v
      obtain ⟨u, hu⟩ := encodeMembers_head kv2 kvs
      rw [show encodeMembers (k, v) (kv2 :: kvs) ++ '\x7d' :: rest
          = '"' :: ((k.data.foldr (fun c acc => escapeChar c ++ acc) ['"'])
              ++ (':' :: ' ' :: (encodeChars v
                  ++ ',' :: ' ' :: (encodeMembers kv2 kvs ++ '\x7d' :: rest))))
        from by
        simp [encodeMembers, encodeStringChars, List.append_assoc]]
      rw [scanObjectItems_quote_step, scanStringBody_escaped k.data _]
      show (match scanValue f
              (skipWs (' ' :: (encodeChars v
                ++ ',' :: ' ' :: (encodeMembers kv2 kvs ++ '\x7d' :: rest)))) with
            | none => none
            | some (v2, r3) =>
              match skipWs r3 with
              | [] => none
              | d2 :: r4 =>
                if d2 == '\x7d' then some ([(String.mk k.data, v2)], r4)
                else if d2 == ',' then
                  match scanObjectItems f (skipWs r4) with
                  | none => none
                  | some (kvs2, r5) => some ((String.mk k.data, v2) :: kvs2, r5)
                else none) = some ((k, v) :: kv2 :: kvs, rest)
      rw [show skipWs (' ' :: (encodeChars v
            ++ ',' :: ' ' :: (encodeMembers kv2 kvs ++ '\x7d' :: rest)))
          = skipWs (encodeChars v
              ++ ',' :: ' ' :: (encodeMembers kv2 kvs ++ '\x7d' :: rest))
        from rfl]
      rw [hec, List.cons_append, skipWs_not_ws hwc, ← List.cons_append, ← hec]
      rw [encode_scanValue v hwv f _ hfv (by rfl)]
      show (match scanObjectItems f
              (skipWs (' ' :: (encodeMembers kv2 kvs ++ '\x7d' :: rest))) with
            | none => none
            | some (kvs2, r5) => some ((String.mk k.data, v) :: kvs2, r5))
          = some ((k, v) :: kv2 :: kvs, rest)
      rw [show skipWs (' ' :: (encodeMembers kv2 kvs ++ '\x7d' :: rest))
          = skipWs (encodeMembers kv2 kvs ++ '\x7d' :: rest) from rfl]
      rw [hu, List.cons_append, skipWs_not_ws (by decide), ← List.cons_append,
        ← hu, hmem]
termination_by kv kvs => sizeOf kv + sizeOf kvs
decreasing_by all_goals (simp_wf; try omega)

end


/-- Python's `json.loads` inverts `json.dumps` on every representable
value. -/
theorem json_loads_dumps (x : Json) (h : Json.wf x = true) :
    json_loads (json_dumps x) = .ok x := by
  obtain ⟨c, t, he, hwc, _, _⟩ := encodeChars_head x
  have hlen := jsize_le_len x
  have hv := encode_scanValue x h ((encodeChars x).length + 1) [] (by omega) rfl
  rw [List.append_nil] at hv
  simp only [json_loads, json_dumps]
  rw [show skipWs (encodeChars x) = encodeChars x from by
    rw [he]; exact skipWs_not_ws hwc t]
  rw [hv]
  rfl

/-- C8: `extract_json_or_raise` is a left inverse of JSON serialization: on
the serialization of any representable value it returns that value. -/
theorem extract_dumps_roundtrip (x : Json) (h : Json.wf x = true) :
    extract_json_or_raise (json_dumps x) = .ok x := by
  simp [extract_json_or_raise, json_loads_dumps x h]

/-- Witness for C8 at a nested concrete value exercising objects, arrays,
negative numbers and string escapes. -/
theorem extract_dumps_roundtrip_witness :
    Json.wf (Json.obj [("companies", .arr [.num (-7), .str "a\"b c"]),
        ("n", .null)]) = true
  ∧ extract_json_or_raise (json_dumps (Json.obj
        [("companies", .arr [.num (-7), .str "a\"b c"]), ("n", .null)]))
      = .ok (Json.obj [("companies", .arr [.num (-7), .str "a\"b c"]),
          ("n", .null)]) := by
  have hwf : Json.wf (Json.obj [("companies", .arr [.num (-7), .str "a\"b c"]),
      ("n", .null)]) = true := by
    simp [Json.wf, Json.wfItems, Json.wfPairs, pairwiseDistinctKeys]
  exact ⟨hwf, extract_dumps_roundtrip _ hwf⟩

end Gtm
